import Mathlib

/-!
Shallow embedding of the piece-table text buffer of MikuTrive/Mikufy
(src/src/text_buffer.cpp, src/headers/text_buffer.h), together with proofs
about the operations `load_file`, `close`, `get_line`, `get_lines`,
`get_text`, `insert`, `delete_range` and `replace`.

Modelling conventions:
- bytes are represented as `Char`, documents and buffers as `List Char`;
- `size_t` values are `Nat` (all subtractions in the C++ code are shown to be
  non-underflowing where it matters, so truncated `Nat` subtraction agrees);
- functions returning `bool` with an out-parameter become `Option`-valued
  functions; mutating member functions become state-passing functions
  `TextBuffer → ... → Bool × TextBuffer`;
- the instance-wide mutex is not modelled (it only serializes calls);
- the filesystem is abstracted: the file a path names is passed as its byte
  contents; `open`/`fstat` are modelled as succeeding, and `mmap` is modelled
  per POSIX, which makes a zero-length mapping fail with `EINVAL`.
-/

namespace Mikufy

/-- PieceType from text_buffer.h: which backing buffer a piece points into. -/
inductive PieceType where
  | ORIGINAL
  | ADD
deriving DecidableEq, Repr

/-- Piece from text_buffer.h: `{type, offset, length}` descriptor of a byte
range inside one backing buffer. -/
structure Piece where
  type : PieceType
  offset : Nat
  length : Nat
deriving DecidableEq, Repr

/-- The C++ default constructor `Piece()`: `ORIGINAL`, offset 0, length 0. -/
def Piece.default : Piece := ⟨PieceType.ORIGINAL, 0, 0⟩

/-- LineInfo from text_buffer.h: a line's absolute start index, its length
(including the trailing newline when present) and the index of the piece the
scan was in when the line was closed. -/
structure LineInfo where
  start_index : Nat
  length : Nat
  piece_index : Nat
deriving DecidableEq, Repr

/-- The TextBuffer state. `mmap_data` is the mapped original file content
(`mmap_size` is its length), `add_buffer` is the used portion of the add
buffer (`add_buffer_used` is its length; the unused capacity beyond it is an
allocation detail with no observable content). -/
structure TextBuffer where
  mmap_data : List Char
  pieces : List Piece
  add_buffer : List Char
  line_cache : List LineInfo
  line_cache_valid : Bool
  line_count : Nat
  char_count : Nat
  file_path : List Char
deriving DecidableEq, Repr

/-- The freshly constructed TextBuffer: no mapping, no pieces, empty invalid
line cache, zero counters (constructor in text_buffer.cpp). -/
def TextBuffer.init : TextBuffer :=
  { mmap_data := []
  , pieces := []
  , add_buffer := []
  , line_cache := []
  , line_cache_valid := false
  , line_count := 0
  , char_count := 0
  , file_path := [] }

/-- MAX_FILE_SIZE from text_buffer.h: 1 GiB cap on loadable files. -/
def MAX_FILE_SIZE : Nat := 1024 * 1024 * 1024

/-- The backing buffer a piece of the given type reads from (the
`piece.type == ORIGINAL ? mmap_data : add_buffer` idiom). -/
def piece_buffer (tb : TextBuffer) : PieceType → List Char
  | PieceType.ORIGINAL => tb.mmap_data
  | PieceType.ADD => tb.add_buffer

/-- The bytes a piece denotes: `buffer[offset .. offset+length)`. The C++
code indexes the raw buffer without a bounds check; the model truncates at
the end of the buffer (the committed-piece invariant proved below shows the
range is always in bounds in reachable states). -/
def piece_bytes (tb : TextBuffer) (p : Piece) : List Char :=
  ((piece_buffer tb p.type).drop p.offset).take p.length

/-- Logical document length of a piece list: the sum of the piece lengths. -/
def total_length (pieces : List Piece) : Nat :=
  (pieces.map Piece.length).sum

/-- The search loop of TextBuffer::find_piece_for_position: walk the list
with a running index `i` and accumulated position `current_pos`; the first
piece with `current_pos + piece.length > pos` contains `pos`. -/
def find_loop : List Piece → Nat → Nat → Nat → Option (Nat × Nat)
  | [], _, _, _ => none
  | p :: rest, pos, i, current_pos =>
    if current_pos + p.length > pos then some (i, pos - current_pos)
    else find_loop rest pos (i + 1) (current_pos + p.length)

/-- TextBuffer::find_piece_for_position: position 0 maps to the start of
piece 0 when the list is non-empty; otherwise the linear scan above; a
position at or past end-of-document falls through to the end of the last
piece; fails only on an empty list. -/
def find_piece_for_position (pieces : List Piece) (pos : Nat) :
    Option (Nat × Nat) :=
  if pos = 0 then
    if pieces.isEmpty then none else some (0, 0)
  else
    match find_loop pieces pos 0 0 with
    | some r => some r
    | none =>
      if pieces.isEmpty then none
      else some (pieces.length - 1, (pieces.getLastD Piece.default).length)

/-- TextBuffer::split_piece: split piece `index` at local `offset` into two
contiguous pieces of the same source; no-op when `index` is out of range or
the split point is at either boundary. Returns the updated list and the
C++ return value (the index of the piece now starting at the split point);
both call sites in the C++ code discard that return value. -/
def split_piece (pieces : List Piece) (index offset : Nat) :
    List Piece × Nat :=
  if h : index < pieces.length then
    let piece := pieces[index]
    if offset = 0 ∨ offset ≥ piece.length then (pieces, index)
    else
      (pieces.take index ++
        [{ piece with length := offset },
         Piece.mk piece.type (piece.offset + offset) (piece.length - offset)] ++
        pieces.drop (index + 1),
       index + 1)
  else (pieces, index)

/-- TextBuffer::merge_pieces: merge pieces `index-1` and `index` when they
have the same source and `prev.offset + prev.length == curr.offset`. -/
def merge_pieces (pieces : List Piece) (index : Nat) : List Piece :=
  if index = 0 ∨ index ≥ pieces.length then pieces
  else
    match pieces[index - 1]?, pieces[index]? with
    | some prev, some curr =>
      if prev.type ≠ curr.type then pieces
      else if prev.offset + prev.length ≠ curr.offset then pieces
      else
        pieces.take (index - 1) ++
          [{ prev with length := prev.length + curr.length }] ++
          pieces.drop (index + 1)
    | _, _ => pieces

/-- TextBuffer::append_to_add_buffer. The model tracks only the used bytes of
the add buffer, so growth (grow_add_buffer) is invisible; its failure branch
is dead in the C++ code anyway because `new char[n]` throws instead of
returning null. Returns the new state and the offset at which the appended
text begins. -/
def append_to_add_buffer (tb : TextBuffer) (text : List Char) :
    TextBuffer × Nat :=
  ({ tb with add_buffer := tb.add_buffer ++ text }, tb.add_buffer.length)

/-- State threaded through the line-cache rebuild scan. -/
structure ScanState where
  cache : List LineInfo
  current_pos : Nat
  line_start : Nat
deriving Repr

/-- One character step of TextBuffer::rebuild_line_cache: a newline closes
the current line (its recorded length includes the newline). -/
def scan_char (piece_index : Nat) (st : ScanState) (ch : Char) : ScanState :=
  if ch = '\n' then
    { cache := st.cache ++
        [⟨st.line_start, st.current_pos - st.line_start + 1, piece_index⟩]
    , current_pos := st.current_pos + 1
    , line_start := st.current_pos + 1 }
  else { st with current_pos := st.current_pos + 1 }

/-- The outer loop of TextBuffer::rebuild_line_cache over the indexed
pieces. -/
def scan_pieces (tb : TextBuffer) : List (Nat × Piece) → ScanState → ScanState
  | [], st => st
  | (i, p) :: rest, st =>
    scan_pieces tb rest ((piece_bytes tb p).foldl (scan_char i) st)

/-- TextBuffer::rebuild_line_cache: clear the cache, scan every piece's bytes
in order, and append a final LineInfo for a trailing line that has no
newline. Note: the C++ function does not touch `line_count` or
`char_count`. -/
def rebuild_line_cache (tb : TextBuffer) : TextBuffer :=
  let st := scan_pieces tb tb.pieces.enum ⟨[], 0, 0⟩
  let cache :=
    if st.current_pos > st.line_start then
      st.cache ++
        [⟨st.line_start, st.current_pos - st.line_start, tb.pieces.length - 1⟩]
    else st.cache
  { tb with line_cache := cache, line_cache_valid := true }

/-- TextBuffer::get_char_count: returns the stored `char_count` scalar. -/
def get_char_count (tb : TextBuffer) : Nat := tb.char_count

/-- TextBuffer::get_line_count: returns the stored `line_count` scalar. -/
def get_line_count (tb : TextBuffer) : Nat := tb.line_count

/-- The copy loop of TextBuffer::get_text, walking pieces from the located
start piece while `current_pos < end_pos`, copying from whichever buffer
each piece references. -/
def get_text_loop (tb : TextBuffer) :
    List Piece → Nat → Nat → Nat → Nat → List Char
  | [], _, _, _, _ => []
  | piece :: rest, offset_in_piece, current_pos, start_pos, end_pos =>
    if current_pos < end_pos then
      let copy_start :=
        if current_pos < start_pos then
          offset_in_piece - (start_pos - current_pos)
        else offset_in_piece
      let copy_end :=
        if piece.length - copy_start > end_pos - current_pos then
          copy_start + (end_pos - current_pos)
        else piece.length
      let copy_length := copy_end - copy_start
      ((piece_buffer tb piece.type).drop (piece.offset + copy_start)).take
          copy_length ++
        get_text_loop tb rest 0 (current_pos + copy_length) start_pos end_pos
    else []

/-- TextBuffer::get_text: clamp both bounds to `[0, char_count]`, fail when
the clamped range is degenerate, locate the start piece and copy forward. -/
def get_text (tb : TextBuffer) (start_pos end_pos : Nat) :
    Option (List Char) :=
  let total_chars := get_char_count tb
  let start_pos := if start_pos > total_chars then total_chars else start_pos
  let end_pos := if end_pos > total_chars then total_chars else end_pos
  if start_pos ≥ end_pos then none
  else
    match find_piece_for_position tb.pieces start_pos with
    | none => none
    | some (piece_index, offset_in_piece) =>
      some (get_text_loop tb (tb.pieces.drop piece_index) offset_in_piece
        start_pos start_pos end_pos)

/-- TextBuffer::get_line: validate against the line cache, then delegate to
get_text for the line's full recorded range `[start_index,
start_index + length)` (whose length includes the trailing newline when the
line has one). -/
def get_line (tb : TextBuffer) (line : Nat) : Option (List Char) :=
  if ¬ tb.line_cache_valid ∨ line ≥ tb.line_cache.length then none
  else
    match tb.line_cache[line]? with
    | none => none
    | some info => get_text tb info.start_index (info.start_index + info.length)

/-- The per-line loop of TextBuffer::get_lines: fetch `count` lines starting
at `start_line`, failing as soon as one get_line fails. -/
def get_lines_loop (tb : TextBuffer) (start_line : Nat) :
    Nat → Option (List (List Char))
  | 0 => some []
  | count + 1 =>
    match get_line tb start_line with
    | none => none
    | some l =>
      match get_lines_loop tb (start_line + 1) count with
      | none => none
      | some rest => some (l :: rest)

/-- TextBuffer::get_lines: clamp the line range against the cache size, fail
on an invalid cache or an empty clamped range, else collect the lines. -/
def get_lines (tb : TextBuffer) (start_line end_line : Nat) :
    Option (List (List Char)) :=
  if ¬ tb.line_cache_valid then none
  else
    let start_line :=
      if start_line ≥ tb.line_cache.length then tb.line_cache.length
      else start_line
    let end_line :=
      if end_line > tb.line_cache.length then tb.line_cache.length
      else end_line
    if start_line ≥ end_line then none
    else get_lines_loop tb start_line (end_line - start_line)

/-- TextBuffer::insert: empty text trivially succeeds; clamp `pos`; locate
the containing piece; split it when `pos` falls strictly inside it; append
the text to the add buffer; insert the new ADD piece at `piece_index`
(note: the C++ code discards split_piece's return value and inserts at the
pre-split index, i.e. in front of the left half of the split); try to merge
with the left neighbor; rebuild the line cache. Does not update
`char_count`/`line_count`. -/
def insert (tb : TextBuffer) (pos : Nat) (text : List Char) :
    Bool × TextBuffer :=
  if text.isEmpty then (true, tb)
  else
    let total_chars := get_char_count tb
    let pos := if pos > total_chars then total_chars else pos
    match find_piece_for_position tb.pieces pos with
    | none => (false, tb)
    | some (piece_index, offset_in_piece) =>
      let pieces1 :=
        if offset_in_piece > 0 then
          (split_piece tb.pieces piece_index offset_in_piece).1
        else tb.pieces
      let app := append_to_add_buffer { tb with pieces := pieces1 } text
      let new_piece := Piece.mk PieceType.ADD app.2 text.length
      let pieces2 := pieces1.take piece_index ++ new_piece ::
        pieces1.drop piece_index
      let pieces3 := merge_pieces pieces2 piece_index
      (true, rebuild_line_cache { app.1 with pieces := pieces3 })

/-- TextBuffer::delete_range: clamp the bounds (trivially succeeding on an
empty clamped range); locate both boundary pieces; split the start piece
when `start_pos` falls strictly inside it and step `start_piece` past the
left half; split the end piece using the end indices computed before the
start split (the C++ code does not re-locate or shift them); erase the
pieces in `[start_piece, end_piece)`; rebuild the line cache. Does not
update `char_count`/`line_count`. -/
def delete_range (tb : TextBuffer) (start_pos end_pos : Nat) :
    Bool × TextBuffer :=
  let total_chars := get_char_count tb
  if start_pos ≥ total_chars then (true, tb)
  else
    let end_pos := if end_pos > total_chars then total_chars else end_pos
    if start_pos ≥ end_pos then (true, tb)
    else
      match find_piece_for_position tb.pieces start_pos with
      | none => (false, tb)
      | some (sp, start_offset) =>
        match find_piece_for_position tb.pieces end_pos with
        | none => (false, tb)
        | some (end_piece, end_offset) =>
          let split1 :=
            if start_offset > 0 then
              ((split_piece tb.pieces sp start_offset).1, sp + 1)
            else (tb.pieces, sp)
          let pieces1 := split1.1
          let start_piece := split1.2
          let pieces2 :=
            if end_offset > 0 ∧
                end_offset < ((pieces1[end_piece]?).getD Piece.default).length
            then (split_piece pieces1 end_piece end_offset).1
            else pieces1
          let pieces3 :=
            if end_piece > start_piece then
              pieces2.take start_piece ++ pieces2.drop end_piece
            else pieces2
          (true, rebuild_line_cache { tb with pieces := pieces3 })

/-- TextBuffer::replace: delete_range, then (for non-empty text) insert at
`start_pos`; fail as soon as either step fails, with no rollback of a
completed delete. -/
def replace (tb : TextBuffer) (start_pos end_pos : Nat) (text : List Char) :
    Bool × TextBuffer :=
  match delete_range tb start_pos end_pos with
  | (false, tb1) => (false, tb1)
  | (true, tb1) =>
    if ¬ text.isEmpty then
      match insert tb1 start_pos text with
      | (false, tb2) => (false, tb2)
      | (true, tb2) => (true, tb2)
    else (true, tb1)

/-- TextBuffer::close: unmap, drop all pieces, clear the line cache and both
counters, reset the add buffer's used size, clear the stored path. The
result does not depend on the prior state (the add buffer's spare capacity,
which close keeps allocated, has no observable content). -/
def close (_tb : TextBuffer) : TextBuffer :=
  { mmap_data := []
  , pieces := []
  , add_buffer := []
  , line_cache := []
  , line_cache_valid := false
  , line_count := 0
  , char_count := 0
  , file_path := [] }

/-- TextBuffer::load_file: close the previous state, then open/stat/map the
file. The filesystem is abstracted by passing the contents the path names;
open and fstat are modelled as succeeding. Oversized files are rejected
before mapping. The mmap call is modelled per POSIX: a zero-length mapping
fails with EINVAL, so a zero-byte file fails at the map step. On success a
single ORIGINAL piece spans the mapping (none when it is empty — that guard
is kept from the C++ code even though the EINVAL branch already excludes the
empty case), the line cache is rebuilt and the counters are set. -/
def load_file (tb : TextBuffer) (path contents : List Char) :
    Bool × TextBuffer :=
  let tb0 := close tb
  let mmap_size := contents.length
  if mmap_size > MAX_FILE_SIZE then (false, tb0)
  else if mmap_size = 0 then (false, tb0)
  else
    let pieces :=
      if mmap_size > 0 then [Piece.mk PieceType.ORIGINAL 0 mmap_size] else []
    let tb1 := rebuild_line_cache
      { tb0 with mmap_data := contents, pieces := pieces, file_path := path }
    (true, { tb1 with
              line_count := tb1.line_cache.length,
              char_count := mmap_size })

/-- A piece is well formed in a state when it is non-empty and its byte range
lies inside its backing buffer (mmap size for ORIGINAL, used add-buffer size
for ADD). -/
def piece_ok (tb : TextBuffer) (p : Piece) : Bool :=
  decide (0 < p.length) &&
    decide (p.offset + p.length ≤ (piece_buffer tb p.type).length)

/-- All pieces of the state are well formed. -/
def pieces_ok (tb : TextBuffer) : Bool :=
  tb.pieces.all (piece_ok tb)

/-- States reachable through the public lifecycle: the freshly constructed
buffer, then any interleaving of load_file, insert, delete_range, replace
and close. -/
inductive Reachable : TextBuffer → Prop where
  | init : Reachable TextBuffer.init
  | load (tb : TextBuffer) (path contents : List Char) :
      Reachable tb → Reachable (load_file tb path contents).2
  | ins (tb : TextBuffer) (pos : Nat) (text : List Char) :
      Reachable tb → Reachable (insert tb pos text).2
  | del (tb : TextBuffer) (a b : Nat) :
      Reachable tb → Reachable (delete_range tb a b).2
  | repl (tb : TextBuffer) (a b : Nat) (text : List Char) :
      Reachable tb → Reachable (replace tb a b text).2
  | cls (tb : TextBuffer) :
      Reachable tb → Reachable (close tb)

/-! ### Theorems about the claims -/

/-- C1: the claim states that after a successful `insert(pos, T)`,
`get_text(pos, pos + len(T))` returns exactly `T`. The code violates it:
on the loaded 4-byte document "abcd", `insert(1, "x")` succeeds but places
the new ADD piece in front of the left half of the split (the split's
return index is discarded), so the document becomes "xabc…" and
`get_text(1, 2)` returns "a", not "x". -/
theorem C1_insert_misplaces_text :
    (insert (load_file TextBuffer.init [] ['a','b','c','d']).2 1 ['x']).1 =
      true ∧
    get_text (insert (load_file TextBuffer.init [] ['a','b','c','d']).2 1
        ['x']).2 1 2 = some ['a'] ∧
    get_text (insert (load_file TextBuffer.init [] ['a','b','c','d']).2 1
        ['x']).2 0 4 = some ['x','a','b','c'] := by
  decide

/-- C2: the claim states that after a successful `delete_range(a, b)` the
document reads as `D[0:a] + D[b:]`. The code violates it: on the loaded
6-byte document "abcdef", `delete_range(1, 3)` returns true but erases
nothing (the end indices are computed before the start split and never
adjusted, and the erase excludes `end_piece` itself), so the whole document
still reads "abcdef" instead of "adef". -/
theorem C2_delete_range_erases_nothing :
    (delete_range (load_file TextBuffer.init []
        ['a','b','c','d','e','f']).2 1 3).1 = true ∧
    get_text (delete_range (load_file TextBuffer.init []
        ['a','b','c','d','e','f']).2 1 3).2 0 6 =
      some ['a','b','c','d','e','f'] ∧
    total_length (delete_range (load_file TextBuffer.init []
        ['a','b','c','d','e','f']).2 1 3).2.pieces = 6 := by
  decide

/-- C3: the claim states that after every successful mutation the sum of the
piece lengths equals `get_char_count()`. The code violates it: neither
insert nor delete_range updates `char_count`, so after loading the 2-byte
document "ab" and successfully inserting "x" at position 0 the piece
lengths sum to 3 while `get_char_count()` still returns 2. -/
theorem C3_char_count_stale_after_insert :
    (insert (load_file TextBuffer.init [] ['a','b']).2 0 ['x']).1 = true ∧
    total_length
        (insert (load_file TextBuffer.init [] ['a','b']).2 0 ['x']).2.pieces =
      3 ∧
    get_char_count
        (insert (load_file TextBuffer.init [] ['a','b']).2 0 ['x']).2 = 2 := by
  decide

/-- C4: the claim states that `get_line(i)` strips the terminating newline,
and that on the 6-byte document "ab\ncd\n" the lines read "ab" and "cd".
The code violates the stripping: `LineInfo.length` includes the newline and
`get_line` fetches the full recorded range without stripping, so
`line_count` is 2 as claimed but `get_line(0)` returns "ab\n" and
`get_line(1)` returns "cd\n". -/
theorem C4_get_line_keeps_newline :
    get_line_count (load_file TextBuffer.init []
        ['a','b','\n','c','d','\n']).2 = 2 ∧
    get_line (load_file TextBuffer.init [] ['a','b','\n','c','d','\n']).2 0 =
      some ['a','b','\n'] ∧
    get_line (load_file TextBuffer.init [] ['a','b','\n','c','d','\n']).2 1 =
      some ['c','d','\n'] := by
  decide

/-- C5, counterexample: the claim states that in the Unloaded state every
query and edit operation other than load_file fails for every argument
value. It is false: `delete_range(0, 1)` on the freshly constructed
(Unloaded) buffer returns true through the trivial-success path for an
empty clamped range. -/
theorem C5_unloaded_delete_succeeds :
    (delete_range TextBuffer.init 0 1).1 = true := by
  decide

/-- C5, amended: in the Unloaded state the queries `get_line`, `get_lines`
and `get_text` fail for every argument; `insert` fails for every non-empty
text but trivially succeeds on empty text; `delete_range` trivially
succeeds for every argument (the clamped range is always empty); and
`replace` succeeds exactly when its text is empty. -/
theorem C5_unloaded_behavior (i lo hi s e pos a b rs re : Nat) (c : Char)
    (text t : List Char) :
    get_line TextBuffer.init i = none ∧
    get_lines TextBuffer.init lo hi = none ∧
    get_text TextBuffer.init s e = none ∧
    (insert TextBuffer.init pos (c :: text)).1 = false ∧
    (insert TextBuffer.init pos []).1 = true ∧
    (delete_range TextBuffer.init a b).1 = true ∧
    (replace TextBuffer.init rs re t).1 = t.isEmpty := by
  refine ⟨?_, ?_, ?_, ?_, ?_, ?_, ?_⟩
  · simp [get_line, TextBuffer.init]
  · simp [get_lines, TextBuffer.init]
  · simp only [get_text, get_char_count, TextBuffer.init]
    have hs : (if s > 0 then 0 else s) = 0 := by split <;> omega
    have he : (if e > 0 then 0 else e) = 0 := by split <;> omega
    simp [hs, he]
  · simp [insert, get_char_count, TextBuffer.init, find_piece_for_position,
      find_loop]
  · simp [insert]
  · simp [delete_range, get_char_count, TextBuffer.init]
  · cases t with
    | nil => simp [replace, delete_range, get_char_count, TextBuffer.init]
    | cons c' t' =>
      simp [replace, delete_range, get_char_count, TextBuffer.init, insert,
        find_piece_for_position, find_loop]

/-- C10: the claim states that load_file on a zero-byte file succeeds with
zero pieces and zero counters. The code fails instead: it calls
`mmap(nullptr, 0, ...)`, and POSIX mmap fails with EINVAL when the length
is 0, so load_file returns false for every empty file (the state is left
fully closed, as the preceding close put it). -/
theorem C10_empty_file_load_fails (tb : TextBuffer) (path : List Char) :
    load_file tb path [] = (false, TextBuffer.init) := by
  rfl

/-- insert with empty text returns success and leaves the state unchanged
(the trivial no-op path at the top of TextBuffer::insert). -/
theorem insert_nil (tb : TextBuffer) (pos : Nat) :
    insert tb pos [] = (true, tb) := rfl

/-- C6: replace is exactly the sequential composition of delete_range and
insert: its result (both the success bit and the final state) is precisely
what running delete_range and then insert on the intermediate state
returns, so it succeeds iff both steps succeed, and the final state is
whatever the second step leaves behind — a completed delete is never rolled
back when the subsequent insert fails. -/
theorem C6_replace_equals_delete_then_insert (tb : TextBuffer)
    (s e : Nat) (text : List Char) :
    replace tb s e text =
      (if (delete_range tb s e).1 then
        insert (delete_range tb s e).2 s text
      else (false, (delete_range tb s e).2)) ∧
    (replace tb s e text).1 =
      ((delete_range tb s e).1 &&
        (insert (delete_range tb s e).2 s text).1) := by
  unfold replace
  rcases hd : delete_range tb s e with ⟨ok, tb1⟩
  cases ok
  · simp
  · cases text with
    | nil => simp [insert_nil]
    | cons c rest =>
      rcases hi : insert tb1 s (c :: rest) with ⟨ok2, tb2⟩
      cases ok2 <;> simp_all

/-- Projections of rebuild_line_cache: it only rewrites the line cache and
its validity flag. -/
theorem rebuild_line_cache_fields (tb : TextBuffer) :
    (rebuild_line_cache tb).mmap_data = tb.mmap_data ∧
    (rebuild_line_cache tb).pieces = tb.pieces ∧
    (rebuild_line_cache tb).add_buffer = tb.add_buffer ∧
    (rebuild_line_cache tb).char_count = tb.char_count := by
  simp [rebuild_line_cache]

/-- A successful load_file maps the whole contents, builds the single
ORIGINAL piece over them and sets char_count to their length. -/
theorem load_file_success_state (tb : TextBuffer) (path contents : List Char)
    (h : (load_file tb path contents).1 = true) :
    (load_file tb path contents).2.mmap_data = contents ∧
    (load_file tb path contents).2.pieces =
      [Piece.mk PieceType.ORIGINAL 0 contents.length] ∧
    (load_file tb path contents).2.char_count = contents.length := by
  by_cases h1 : contents.length > MAX_FILE_SIZE
  · simp [load_file, h1] at h
  · by_cases h2 : contents.length = 0
    · simp [load_file, h1, h2] at h
    · have h3 : 0 < contents.length := Nat.pos_of_ne_zero h2
      simp [load_file, h1, h2, h3, rebuild_line_cache_fields]

/-- get_text over a state holding a single ORIGINAL piece spanning the whole
mapping returns the whole mapping. -/
theorem get_text_single_original_piece (S : TextBuffer) (n : Nat)
    (hn : n ≠ 0)
    (hp : S.pieces = [Piece.mk PieceType.ORIGINAL 0 n])
    (hm : S.mmap_data.length = n)
    (hc : S.char_count = n) :
    get_text S 0 n = some S.mmap_data := by
  have hpos : 0 < n := Nat.pos_of_ne_zero hn
  rw [get_text]
  simp only [get_char_count, hc, hp]
  have e1 : (if 0 > n then n else 0) = 0 := by simp
  have e2 : (if n > n then n else n) = n := ite_self n
  have e3 : find_piece_for_position [Piece.mk PieceType.ORIGINAL 0 n] 0 =
      some (0, 0) := by
    simp [find_piece_for_position]
  rw [e1, e2, if_neg (by omega), e3]
  simp only [List.drop_zero, get_text_loop]
  rw [if_pos hpos]
  simp only [lt_self_iff_false, if_false, gt_iff_lt, Nat.sub_zero,
    Nat.add_zero, Nat.zero_add, piece_buffer, List.drop_zero, List.append_nil]
  rw [← hm, List.take_length]

/-- C7: round trip — for every byte sequence successfully loaded via
load_file, get_text(0, char_count) succeeds and returns exactly the loaded
bytes. (A zero-byte file never loads successfully — the mmap of length 0
fails — so every successfully loaded document is non-empty and the
degenerate-range failure of get_text(0, 0) never arises here.) -/
theorem C7_round_trip (tb : TextBuffer) (path contents : List Char)
    (h : (load_file tb path contents).1 = true) :
    get_text (load_file tb path contents).2 0
      (get_char_count (load_file tb path contents).2) = some contents := by
  obtain ⟨hmm, hpc, hcc⟩ := load_file_success_state tb path contents h
  have hn : contents.length ≠ 0 := by
    intro h0
    simp [load_file, h0, MAX_FILE_SIZE] at h
  have := get_text_single_original_piece (load_file tb path contents).2
    contents.length hn hpc (by rw [hmm]) hcc
  rw [get_char_count, hcc, this, hmm]

/-- Witness for C7 at the concrete one-byte file "x". -/
theorem C7_round_trip_witness :
    (load_file TextBuffer.init [] ['x']).1 = true ∧
    get_text (load_file TextBuffer.init [] ['x']).2 0
      (get_char_count (load_file TextBuffer.init [] ['x']).2) =
      some ['x'] :=
  ⟨by decide, C7_round_trip TextBuffer.init [] ['x'] (by decide)⟩

/-- The linear-scan loop of find_piece_for_position finds nothing when the
target position lies at or beyond the end of the scanned pieces. -/
theorem find_loop_none (l : List Piece) (pos i current_pos : Nat)
    (h : current_pos + (l.map Piece.length).sum ≤ pos) :
    find_loop l pos i current_pos = none := by
  induction l generalizing i current_pos with
  | nil => rfl
  | cons p rest ih =>
    simp only [List.map_cons, List.sum_cons] at h
    simp only [find_loop]
    rw [if_neg (by omega)]
    exact ih _ _ (by omega)

/-- C8: piece location — on a non-empty piece list (with the positive piece
lengths every committed list has), position 0 resolves to the start of the
first piece, the end-of-document position resolves to the end of the last
piece, and lookup of any position succeeds; on the empty list every lookup
fails. -/
theorem C8_find_piece_location (pieces : List Piece) (pos : Nat)
    (hne : pieces ≠ [])
    (hlen : ∀ p ∈ pieces, 0 < p.length) :
    find_piece_for_position pieces 0 = some (0, 0) ∧
    find_piece_for_position pieces (total_length pieces) =
      some (pieces.length - 1, (pieces.getLastD Piece.default).length) ∧
    (find_piece_for_position pieces pos).isSome = true ∧
    find_piece_for_position ([] : List Piece) pos = none := by
  have hempty : pieces.isEmpty = false := by
    cases pieces with
    | nil => exact absurd rfl hne
    | cons p rest => rfl
  refine ⟨?_, ?_, ?_, ?_⟩
  · simp [find_piece_for_position, hempty]
  · have htot : 0 < total_length pieces := by
      cases pieces with
      | nil => exact absurd rfl hne
      | cons p rest =>
        have := hlen p (by simp)
        simp only [total_length, List.map_cons, List.sum_cons]
        omega
    unfold find_piece_for_position
    rw [if_neg (by omega),
      find_loop_none pieces (total_length pieces) 0 0 (by simp [total_length])]
    simp [hempty]
  · unfold find_piece_for_position
    by_cases hp : pos = 0
    · simp [hp, hempty]
    · rw [if_neg hp]
      cases hfl : find_loop pieces pos 0 0 <;> simp [hempty]
  · unfold find_piece_for_position
    by_cases hp : pos = 0 <;> simp [hp, find_loop]

/-- Witness for C8 at the concrete one-piece list covering two bytes and
probe position 1. -/
theorem C8_find_piece_location_witness :
    find_piece_for_position [Piece.mk PieceType.ORIGINAL 0 2] 0 =
      some (0, 0) ∧
    find_piece_for_position [Piece.mk PieceType.ORIGINAL 0 2]
        (total_length [Piece.mk PieceType.ORIGINAL 0 2]) =
      some ([Piece.mk PieceType.ORIGINAL 0 2].length - 1,
        ([Piece.mk PieceType.ORIGINAL 0 2].getLastD Piece.default).length) ∧
    (find_piece_for_position [Piece.mk PieceType.ORIGINAL 0 2] 1).isSome =
      true ∧
    find_piece_for_position ([] : List Piece) 1 = none :=
  C8_find_piece_location [Piece.mk PieceType.ORIGINAL 0 2] 1 (by decide)
    (by decide)

def BufLen (tb : TextBuffer) (t : PieceType) : Nat := (piece_buffer tb t).length

def PieceFits (B : PieceType → Nat) (p : Piece) : Prop :=
  0 < p.length ∧ p.offset + p.length ≤ B p.type

def PiecesFit (B : PieceType → Nat) (pieces : List Piece) : Prop :=
  ∀ p ∈ pieces, PieceFits B p

def StateWF (tb : TextBuffer) : Prop := PiecesFit (BufLen tb) tb.pieces

theorem pieces_ok_iff (tb : TextBuffer) : pieces_ok tb = true ↔ StateWF tb := by
  simp [pieces_ok, piece_ok, List.all_eq_true, StateWF, PiecesFit, PieceFits,
    BufLen]

theorem mem_of_getElem_opt {α : Type} {l : List α} {i : Nat} {a : α}
    (h : l[i]? = some a) : a ∈ l := by
  obtain ⟨hlt, rfl⟩ := List.getElem?_eq_some.mp h
  exact List.getElem_mem hlt

theorem PiecesFit.split_piece {B : PieceType → Nat} {pieces : List Piece}
    (h : PiecesFit B pieces) (i off : Nat) :
    PiecesFit B (Mikufy.split_piece pieces i off).1 := by
  intro p hp
  unfold Mikufy.split_piece at hp
  split at hp
  case isTrue hlt =>
    dsimp only [] at hp
    split at hp
    · exact h p hp
    case isFalse hoff =>
      push_neg at hoff
      obtain ⟨hoff0, hoffl⟩ := hoff
      obtain ⟨hq1, hq2⟩ := h pieces[i] (List.getElem_mem hlt)
      simp only [List.append_assoc, List.mem_append, List.mem_cons,
        List.not_mem_nil, or_false] at hp
      rcases hp with hp | (hp | hp) | hp
      · exact h p (List.take_subset i pieces hp)
      · subst hp
        constructor
        · show 0 < off
          exact Nat.pos_of_ne_zero hoff0
        · show pieces[i].offset + off ≤ B pieces[i].type
          omega
      · subst hp
        constructor
        · show 0 < pieces[i].length - off
          omega
        · show pieces[i].offset + off + (pieces[i].length - off) ≤
            B pieces[i].type
          omega
      · exact h p (List.drop_subset (i + 1) pieces hp)
  · exact h p hp

theorem PiecesFit.merge_pieces {B : PieceType → Nat} {pieces : List Piece}
    (h : PiecesFit B pieces) (i : Nat) :
    PiecesFit B (Mikufy.merge_pieces pieces i) := by
  intro p hp
  unfold Mikufy.merge_pieces at hp
  split at hp
  · exact h p hp
  · split at hp
    case h_1 prev curr hprev hcurr =>
      split at hp
      · exact h p hp
      case isFalse hty =>
        split at hp
        · exact h p hp
        case isFalse hoffeq =>
          have hty' : prev.type = curr.type := by
            push_neg at hty
            exact hty
          have hoff' : prev.offset + prev.length = curr.offset := by
            push_neg at hoffeq
            exact hoffeq
          obtain ⟨hpm1, hpm2⟩ := h prev (mem_of_getElem_opt hprev)
          obtain ⟨hcm1, hcm2⟩ := h curr (mem_of_getElem_opt hcurr)
          simp only [List.append_assoc, List.mem_append, List.mem_cons,
            List.not_mem_nil, or_false] at hp
          rcases hp with hp | hp | hp
          · exact h p (List.take_subset (i - 1) pieces hp)
          · subst hp
            constructor
            · show 0 < prev.length + curr.length
              omega
            · show prev.offset + (prev.length + curr.length) ≤ B prev.type
              rw [hty']
              omega
          · exact h p (List.drop_subset (i + 1) pieces hp)
    case h_2 => exact h p hp

theorem rebuild_pieces_eq (X : TextBuffer) :
    (rebuild_line_cache X).pieces = X.pieces := by
  simp [rebuild_line_cache]

theorem BufLen_rebuild (X : TextBuffer) :
    BufLen (rebuild_line_cache X) = BufLen X := by
  funext t
  cases t <;> simp [BufLen, piece_buffer, rebuild_line_cache]

theorem StateWF_rebuild {X : TextBuffer} (h : StateWF X) :
    StateWF (rebuild_line_cache X) := by
  unfold StateWF
  rw [BufLen_rebuild, rebuild_pieces_eq]
  exact h

theorem PieceFits.mono {B C : PieceType → Nat} (hB : ∀ t, B t ≤ C t)
    {p : Piece} (h : PieceFits B p) : PieceFits C p :=
  ⟨h.1, le_trans h.2 (hB p.type)⟩

theorem close_wf (tb : TextBuffer) : StateWF (Mikufy.close tb) := by
  intro p hp
  simp [Mikufy.close] at hp

theorem init_wf : StateWF TextBuffer.init := by
  intro p hp
  simp [TextBuffer.init] at hp

theorem BufLen_grow (tb : TextBuffer) (P : List Piece) (text : List Char) :
    ∀ t, BufLen tb t ≤
      BufLen { tb with pieces := P, add_buffer := tb.add_buffer ++ text } t := by
  intro t
  cases t <;> simp [BufLen, piece_buffer]

theorem BufLen_set_pieces (tb : TextBuffer) (P : List Piece) :
    BufLen { tb with pieces := P } = BufLen tb := by
  funext t
  cases t <;> rfl

theorem new_piece_fits (tb : TextBuffer) (P : List Piece) (text : List Char) :
    PieceFits
      (BufLen { tb with pieces := P, add_buffer := tb.add_buffer ++ text })
      (Piece.mk PieceType.ADD tb.add_buffer.length text.length) ∨
      text = [] := by
  cases text with
  | nil => exact Or.inr rfl
  | cons c rest =>
    refine Or.inl ⟨by simp, ?_⟩
    simp [BufLen, piece_buffer]

theorem load_wf (tb : TextBuffer) (path contents : List Char) :
    StateWF (load_file tb path contents).2 := by
  unfold load_file
  dsimp only []
  split
  · exact close_wf tb
  · split
    · exact close_wf tb
    case isFalse h1 h2 =>
      have hn : 0 < contents.length := Nat.pos_of_ne_zero h2
      intro p hp
      dsimp only [] at hp
      rw [rebuild_pieces_eq] at hp
      dsimp only [] at hp
      rw [if_pos hn] at hp
      rcases List.mem_singleton.mp hp with rfl
      constructor
      · exact hn
      · simp [BufLen, piece_buffer, rebuild_line_cache]

theorem insert_wf (tb : TextBuffer) (pos : Nat) (text : List Char)
    (h : StateWF tb) : StateWF (insert tb pos text).2 := by
  cases text with
  | nil => exact h
  | cons c rest =>
    unfold insert
    simp only [List.isEmpty_cons, Bool.false_eq_true, if_false]
    cases hf : find_piece_for_position tb.pieces
        (if pos > get_char_count tb then get_char_count tb else pos) with
    | none => exact h
    | some pr =>
      rcases pr with ⟨pi, off⟩
      dsimp only []
      apply StateWF_rebuild
      unfold StateWF
      refine PiecesFit.merge_pieces ?_ _
      have hXfit : PiecesFit (BufLen tb)
          (if off > 0 then (Mikufy.split_piece tb.pieces pi off).1
           else tb.pieces) := by
        split
        · exact PiecesFit.split_piece h pi off
        · exact h
      intro p hp
      simp only [List.mem_append, List.mem_cons] at hp
      rcases hp with hp | hp | hp
      · exact PieceFits.mono (BufLen_grow tb _ _)
          (hXfit p (List.take_subset _ _ hp))
      · subst hp
        rcases new_piece_fits tb
            (merge_pieces
              (List.take pi
                  (if off > 0 then (Mikufy.split_piece tb.pieces pi off).1
                   else tb.pieces) ++
                Piece.mk PieceType.ADD tb.add_buffer.length
                    (c :: rest).length ::
                  List.drop pi
                    (if off > 0 then (Mikufy.split_piece tb.pieces pi off).1
                     else tb.pieces))
              pi)
            (c :: rest) with hfit | habs
        · exact hfit
        · exact absurd habs (by simp)
      · exact PieceFits.mono (BufLen_grow tb _ _)
          (hXfit p (List.drop_subset _ _ hp))


theorem fit_of_ite {B : PieceType → Nat} {c : Prop} [Decidable c]
    {X Y : List Piece} (hX : PiecesFit B X) (hY : PiecesFit B Y) :
    PiecesFit B (if c then X else Y) := by
  split
  · exact hX
  · exact hY

theorem PiecesFit.take_append_drop {B : PieceType → Nat} {l : List Piece}
    (h : PiecesFit B l) (i j : Nat) : PiecesFit B (l.take i ++ l.drop j) := by
  intro p hp
  rcases List.mem_append.mp hp with hp | hp
  · exact h p (List.take_subset _ _ hp)
  · exact h p (List.drop_subset _ _ hp)

theorem delete_wf (tb : TextBuffer) (a b : Nat) (h : StateWF tb) :
    StateWF (delete_range tb a b).2 := by
  unfold delete_range
  dsimp only []
  repeat' split
  all_goals try exact h
  all_goals
    apply StateWF_rebuild
    unfold StateWF
    rw [BufLen_set_pieces]
    dsimp only []
  all_goals
    first
      | exact h
      | exact PiecesFit.split_piece h _ _
      | exact PiecesFit.split_piece (PiecesFit.split_piece h _ _) _ _
      | exact PiecesFit.take_append_drop h _ _
      | exact PiecesFit.take_append_drop (PiecesFit.split_piece h _ _) _ _
      | exact PiecesFit.take_append_drop
          (PiecesFit.split_piece (PiecesFit.split_piece h _ _) _ _) _ _

theorem replace_wf (tb : TextBuffer) (a b : Nat) (text : List Char)
    (h : StateWF tb) : StateWF (replace tb a b text).2 := by
  unfold replace
  rcases hd : delete_range tb a b with ⟨ok, tb1⟩
  have h1 : StateWF tb1 := by
    have hw := delete_wf tb a b h
    rw [hd] at hw
    exact hw
  cases ok
  · exact h1
  · cases text with
    | nil => exact h1
    | cons c rest =>
      have h2 := insert_wf tb1 a (c :: rest) h1
      rcases hi : insert tb1 a (c :: rest) with ⟨ok2, tb2⟩
      rw [hi] at h2
      dsimp only []
      rw [if_pos (by simp), hi]
      cases ok2
      · exact h2
      · exact h2

/-- C9: committed piece-list invariant — in every state reachable via
load_file, insert, delete_range, replace and close (from the freshly
constructed buffer), every piece has positive length and its byte range
`[offset, offset + length)` lies within the current size of its backing
buffer (the mapped size for ORIGINAL pieces, the used add-buffer size for
ADD pieces). -/
theorem C9_committed_piece_invariant (tb : TextBuffer) (h : Reachable tb) :
    pieces_ok tb = true := by
  rw [pieces_ok_iff]
  induction h with
  | init => exact init_wf
  | load tb' path contents hr ih => exact load_wf tb' path contents
  | ins tb' pos text hr ih => exact insert_wf tb' pos text ih
  | del tb' a b hr ih => exact delete_wf tb' a b ih
  | repl tb' a b text hr ih => exact replace_wf tb' a b text ih
  | cls tb' hr ih => exact close_wf tb'

/-- Witness for C9 at the concrete reachable state obtained by loading "ab"
and inserting "x" at position 0. -/
theorem C9_committed_piece_invariant_witness :
    pieces_ok
      ((insert (load_file TextBuffer.init [] ['a','b']).2 0 ['x']).2) =
      true :=
  C9_committed_piece_invariant _
    (Reachable.ins _ 0 ['x'] (Reachable.load _ [] ['a','b'] Reachable.init))

end Mikufy
